import Mathlib

/-!
Verification of the HL7 parsing core of the FhirConverter repository
(`hl7_parser_service.py`): the message tokenizer `parse_hl7_message` and the
demographic extractor `extract_patient_info`.

Python strings are modelled as `List Char`; Python `str.split(sep)` for a
single-character separator is `splitOnChar`, the membership test `sep in s`
is `strContainsC`, and `str.strip()` is `pyStrip`.  The external `hl7`
library (only `hl7.parse` is used by the source) is not part of the
repository; it is modelled from the spec, see `hl7parseModel` below.
-/

namespace FhirConverter

/-- Python strings are modelled as lists of characters. -/
abbrev Str := List Char

/-- Character list of a Lean string literal, used to write concrete inputs. -/
def str (s : String) : Str := s.data

/-- Python `str.strip()`: drop leading and trailing whitespace. -/
def pyStrip (xs : Str) : Str :=
  ((xs.dropWhile Char.isWhitespace).reverse.dropWhile Char.isWhitespace).reverse

/-- Python `c in s` for a single-character separator `c`. -/
def strContainsC (c : Char) : Str → Bool
  | [] => false
  | x :: xs => x = c || strContainsC c xs

/-- Whether the two-character sequence `a b` occurs in the list (used for the
CRLF test `"\r\n" in content`). -/
def containsPair (a b : Char) : Str → Bool
  | [] => false
  | [_] => false
  | x :: y :: xs => (x = a && y = b) || containsPair a b (y :: xs)

/-- Python `s.split(c)` for a one-character separator: always returns at least
one (possibly empty) part. -/
def splitOnChar (c : Char) : Str → List Str
  | [] => [[]]
  | x :: xs =>
    if x = c then [] :: splitOnChar c xs
    else (x :: (splitOnChar c xs).headD []) :: (splitOnChar c xs).tail

/-- Python `s.split(ab)` for the two-character separator `a b` (only ever used
with the CRLF segment separator). -/
def splitOnPair (a b : Char) : Str → List Str
  | [] => [[]]
  | [x] => [[x]]
  | x :: y :: xs =>
    if x = a && y = b then [] :: splitOnPair a b xs
    else (x :: (splitOnPair a b (y :: xs)).headD []) :: (splitOnPair a b (y :: xs)).tail

/-- A subcomponent entry, source line 95: a dict with a single `value` key. -/
structure Subcomponent where
  value : Str
deriving DecidableEq

/-- A component entry, source lines 97-101: `componentPosition`, `value`,
`subcomponents`. -/
structure Component where
  componentPosition : Nat
  value : Str
  subcomponents : List Subcomponent
deriving DecidableEq

/-- Source lines 91-95 and 113-117: a component's subcomponent list is the
split of its value on the subcomponent separator when that separator occurs in
the value, and empty otherwise. -/
def mkSubcomponents (subSep : Char) (comp : Str) : List Subcomponent :=
  if strContainsC subSep comp then (splitOnChar subSep comp).map Subcomponent.mk
  else []

/-- One component produced by a component split, source lines 89-101 and
111-123: position `j + 1` for the part at zero-based index `j`. -/
def componentAt (subSep : Char) (j : Nat) (comp : Str) : Component :=
  { componentPosition := j + 1
    value := comp
    subcomponents := mkSubcomponents subSep comp }

/-- `for j, comp in enumerate(components)` with positions `j + 1`,
source lines 89-101 and 111-123. -/
def mapWithPos (subSep : Char) (j : Nat) : List Str → List Component
  | [] => []
  | p :: ps => componentAt subSep j p :: mapWithPos subSep (j + 1) ps

/-- Field decomposition, source lines 80-131: repetition split first, then
component split inside each repetition group or directly on the field, with a
non-emptiness check only in the final plain branch (line 126).  Repetition
groups without the component separator emit one component at position 1 with
an empty subcomponent list (lines 102-108), as does the plain branch
(lines 124-131). -/
def decomposeField (repSep compSep subSep : Char) (fv : Str) : List Component :=
  if strContainsC repSep fv then
    ((splitOnChar repSep fv).map (fun rep =>
      if strContainsC compSep rep then
        mapWithPos subSep 0 (splitOnChar compSep rep)
      else
        [{ componentPosition := 1, value := rep, subcomponents := [] }])).flatten
  else if strContainsC compSep fv then
    mapWithPos subSep 0 (splitOnChar compSep fv)
  else if fv = [] then []
  else [{ componentPosition := 1, value := fv, subcomponents := [] }]

/-- A field entry, source lines 133-137: `fieldPosition`, raw `value`,
`components`. -/
structure FieldData where
  fieldPosition : Nat
  value : Str
  components : List Component
deriving DecidableEq

/-- A segment entry, source lines 71-74: `segmentId` and `fields`. -/
structure SegmentData where
  segmentId : Str
  fields : List FieldData
deriving DecidableEq

/-- `for i in range(1, len(segment))`, source lines 77-139: the field at
one-based wire position `i` is recorded with `fieldPosition := i`, in order. -/
def fieldsFrom (repSep compSep subSep : Char) (i : Nat) : List Str → List FieldData
  | [] => []
  | v :: vs =>
    { fieldPosition := i, value := v, components := decomposeField repSep compSep subSep v }
      :: fieldsFrom repSep compSep subSep (i + 1) vs

/-- Source lines 69-141: one structured segment; `segmentId` is the segment's
element 0 and the fields are elements 1 onward. -/
def segmentData (repSep compSep subSep : Char) (seg : List Str) : SegmentData :=
  { segmentId := seg.headD []
    fields := fieldsFrom repSep compSep subSep 1 seg.tail }

/-- The five-entry Delimiter Set recorded in the header metadata,
source lines 53-59 (`encoding`). -/
structure Encoding where
  fieldSeparator : Str
  componentSeparator : Str
  repetitionSeparator : Str
  escapeCharacter : Str
  subcomponentSeparator : Str
deriving DecidableEq

/-- The header metadata, source lines 44-60 (`message_info`). -/
structure MessageInfo where
  messageType : Str
  messageControlId : Str
  messageDate : Str
  version : Option Str
  sendingApplication : Str
  sendingFacility : Str
  receivingApplication : Str
  receivingFacility : Str
  encoding : Encoding
deriving DecidableEq

/-- The structured message, source lines 62-66. -/
structure StructuredMessage where
  messageInfo : MessageInfo
  segments : List SegmentData
deriving DecidableEq

/-- The value returned by `parse_hl7_message`: either the success dict of
source lines 143-147 (carrying the structured data) or the failure dict of
source lines 153-158 (carrying message, error text and stack trace, and no
data key at all). -/
inductive ParseResult where
  | ok (message : Str) (data : StructuredMessage)
  | failure (message : Str) (error : Str) (stackTrace : Str)
deriving DecidableEq

/-- Modelled from the spec: the Python `traceback.format_exc()` string of
source line 151.  Its exact text is not reproducible in the embedding; it is
modelled as a diagnostic trace string carrying the exception text. -/
def traceOf (e : Str) : Str := str ("Traceback (most recent call last): ") ++ e

/-- Modelled from the spec: the external library call `hl7.parse` of source
line 31, which is not part of the repository.  Per spec section 4.1 the
library splits the text into segments (segment separator priority
CRLF, then LF when no CR is present, then CR) and each segment into fields;
the parsed header segment holds the 3-letter segment code at element 0
followed by its fields, whose first field is the raw text immediately
following the segment code (the field separator, a single character) and
whose second field is the encoding-characters run - the spec's metadata
positions (sending application at 3 through version at 12, present only when
the header has at least 13 positions) pin this layout down.  Elements 0-2 of
the header are stored structure-less, so taking element `[0]` of any of them
yields the whole text.  Every other segment holds its segment code at
element 0 followed by the fields split on the field separator.  The library
throws on empty input and on a header too short to carry the separators;
this is modelled by the `Except` error branch. -/
def hl7parseModel (content : Str) : Except Str (List (List Str)) :=
  if content = [] then .error (str ("empty message"))
  else
    let segs :=
      if containsPair '\r' '\n' content then splitOnPair '\r' '\n' content
      else if strContainsC '\n' content && !(strContainsC '\r' content) then
        splitOnChar '\n' content
      else splitOnChar '\r' content
    match segs with
    | [] => .error (str ("no segments"))
    | s0 :: rest =>
      match s0 with
      | c1 :: c2 :: c3 :: fs :: body =>
        .ok (([c1, c2, c3] :: [fs] :: splitOnChar fs body)
              :: rest.map (splitOnChar fs))
      | _ => .error (str ("header segment too short"))

/-- Delimiter derivation, source lines 37-41: the field separator is
`str(msh_segment[0][0])` (the whole element, elements 0-2 being
structure-less), the component separator is the first character of
`str(msh_segment[1][0])`, and the repetition separator, escape character and
subcomponent separator are the characters of that same element at indices
1, 2 and 3, defaulting to `~`, `\` and `&` when it is too short.  A Python
`IndexError` on a missing element becomes the `Except` error branch; an empty
element 1 would make the component separator the empty string and every later
`split` raise, which is hoisted here as an error (unreachable for
`hl7parseModel` output). -/
def deriveSeparators (msh : List Str) : Except Str (Encoding × Char × Char × Char) :=
  match msh.get? 0 with
  | none => .error (str ("list index out of range"))
  | some f0 =>
    match msh.get? 1 with
    | none => .error (str ("list index out of range"))
    | some enc =>
      match enc with
      | [] => .error (str ("empty separator"))
      | compC :: _ =>
        let repC := enc.getD 1 '~'
        let escC := enc.getD 2 '\\'
        let subC := enc.getD 3 '&'
        .ok ({ fieldSeparator := f0
               componentSeparator := [compC]
               repetitionSeparator := [repC]
               escapeCharacter := [escC]
               subcomponentSeparator := [subC] }, repC, compC, subC)

/-- Header metadata extraction, source lines 44-60: message type at element 9,
control id at 10, date at 7, version at 12 only when the header has more than
12 elements, sending/receiving application and facility at 3-6.  A missing
unguarded element is a Python `IndexError`, modelled by the error branch. -/
def buildMessageInfo (msh : List Str) (encRec : Encoding) : Except Str MessageInfo :=
  match msh.get? 9, msh.get? 10, msh.get? 7, msh.get? 3, msh.get? 4, msh.get? 5, msh.get? 6 with
  | some mt, some mc, some md, some sa, some sf, some ra, some rf =>
    .ok { messageType := mt
          messageControlId := mc
          messageDate := md
          version := if 12 < msh.length then msh.get? 12 else none
          sendingApplication := sa
          sendingFacility := sf
          receivingApplication := ra
          receivingFacility := rf
          encoding := encRec }
  | _, _, _, _, _, _, _ => .error (str ("list index out of range"))

/-- The try-block body of `parse_hl7_message`, source lines 17-147: strip the
input, run the library parse, derive the separators from the first segment,
build the header metadata, then structure every segment (the header
included) with the derived repetition, component and subcomponent
separators. -/
def parse_hl7_body (raw : Str) : Except Str StructuredMessage :=
  match hl7parseModel (pyStrip raw) with
  | .error e => .error e
  | .ok segs =>
    match segs with
    | [] => .error (str ("list index out of range"))
    | msh :: _ =>
      match deriveSeparators msh with
      | .error e => .error e
      | .ok (encRec, repC, compC, subC) =>
        match buildMessageInfo msh encRec with
        | .error e => .error e
        | .ok info =>
          .ok { messageInfo := info
                segments := segs.map (segmentData repC compC subC) }

/-- `parse_hl7_message`, source lines 13-158: the whole body runs inside one
try/except; any exception is returned as the failure dict of lines 153-158,
whose message embeds the exception text and which carries the trace string
and no data. -/
def parse_hl7_message (raw : Str) : ParseResult :=
  match parse_hl7_body raw with
  | .ok d => .ok (str ("Message HL7 parsé avec succès")) d
  | .error e =>
    .failure (str ("Erreur lors du parsing du message HL7: ") ++ e) e (traceOf e)

/-- An extracted identifier, source lines 215-219: `value`, `type`, `system`. -/
structure PatientIdentifier where
  value : Str
  type : Option Str
  system : Option Str
deriving DecidableEq

/-- An extracted name, source lines 244-250; `pfx`/`sfx` model the Python
keys `prefix`/`suffix`. -/
structure PatientName where
  family : Option Str
  given : Option Str
  middle : Option Str
  pfx : Option Str
  sfx : Option Str
deriving DecidableEq

/-- An extracted address, source lines 278-285. -/
structure PatientAddress where
  street : Option Str
  otherStreet : Option Str
  city : Option Str
  state : Option Str
  postalCode : Option Str
  country : Option Str
deriving DecidableEq

/-- The extracted patient record, source lines 191-197. -/
structure PatientInfo where
  identifiers : List PatientIdentifier
  names : List PatientName
  birthDate : Option Str
  gender : Option Str
  addresses : List PatientAddress
deriving DecidableEq

/-- The value returned by `extract_patient_info`: the success dict of source
lines 287-291 or the PID-not-found failure dict of lines 171-174, which
carries only a message and no data. -/
inductive ExtractResult where
  | ok (message : Str) (data : PatientInfo)
  | failure (message : Str)
deriving DecidableEq

/-- The last-match scan loops of source lines 209-213, 229-242 and 261-276:
every component of the field is visited in order and the variable for
position `pos` keeps the value of the last component at that position,
staying `None` when there is none. -/
def lastValueAt (pos : Nat) (comps : List Component) : Option Str :=
  comps.foldl (fun acc c => if c.componentPosition = pos then some c.value else acc) none

/-- `get_field`, source lines 177-181: first field whose `fieldPosition`
matches, else `None`. -/
def getFieldAt (fs : List FieldData) (pos : Nat) : Option FieldData :=
  fs.find? (fun f => f.fieldPosition == pos)

/-- Identifier extraction from PID.3, source lines 199-219: one identifier per
component at position 1, each one's type and system coming from a fresh scan
of the whole field's components for the last component at positions 5 and 4
respectively. -/
def extractIdentifiers (f : FieldData) : List PatientIdentifier :=
  (f.components.filter (fun c => c.componentPosition == 1)).map (fun c =>
    { value := c.value
      type := lastValueAt 5 f.components
      system := lastValueAt 4 f.components })

/-- Name extraction from PID.5, source lines 221-250: positions 1-5 map to
family, given, middle, suffix, prefix. -/
def extractName (f : FieldData) : PatientName :=
  { family := lastValueAt 1 f.components
    given := lastValueAt 2 f.components
    middle := lastValueAt 3 f.components
    sfx := lastValueAt 4 f.components
    pfx := lastValueAt 5 f.components }

/-- Address extraction from PID.11, source lines 252-285: positions 1-6 map to
street, other street, city, state, postal code, country. -/
def extractAddress (f : FieldData) : PatientAddress :=
  { street := lastValueAt 1 f.components
    otherStreet := lastValueAt 2 f.components
    city := lastValueAt 3 f.components
    state := lastValueAt 4 f.components
    postalCode := lastValueAt 5 f.components
    country := lastValueAt 6 f.components }

/-- Source line 165: `parsed_message.get("data", {}).get("segments", [])` -
a failure value has no data key, so its segment list is empty. -/
def segmentsOf (parsed : ParseResult) : List SegmentData :=
  match parsed with
  | .ok _ d => d.segments
  | .failure _ _ _ => []

/-- `extract_patient_info`, source lines 160-298: find the first segment with
id `PID` (failure dict when none), then project fields 3, 5, 7, 8 and 11
into identifiers, at most one name, birth date, gender and at most one
address.  The body cannot raise on tokenizer-shaped input, so the generic
except branch of lines 293-298 is unreachable and not modelled. -/
def extract_patient_info (parsed : ParseResult) : ExtractResult :=
  match (segmentsOf parsed).find? (fun s => s.segmentId == str ("PID")) with
  | none => .failure (str ("Segment PID non trouvé dans le message HL7"))
  | some pid =>
    .ok (str ("Informations patient extraites avec succès"))
      { identifiers :=
          match getFieldAt pid.fields 3 with
          | none => []
          | some f => extractIdentifiers f
        names :=
          match getFieldAt pid.fields 5 with
          | none => []
          | some f => [extractName f]
        birthDate := (getFieldAt pid.fields 7).map (fun f => f.value)
        gender := (getFieldAt pid.fields 8).map (fun f => f.value)
        addresses :=
          match getFieldAt pid.fields 11 with
          | none => []
          | some f => [extractAddress f] }

/-- The literal end-to-end scenario message of spec section 8. -/
def sampleRaw : Str :=
  str ("MSH|^~\\&|AppA|FacA|AppB|FacB|20230101120000||ADT^A01|MSG00001|P|2.5\rPID|1||12345^^^HOSP^MR||DOE^JOHN^M||19800101|M|||123 MAIN ST^^SPRINGFIELD^IL^62701^USA")

/-- A message with a header but no PID segment. -/
def noPidRaw : Str :=
  str ("MSH|^~\\&|AppA|FacA|AppB|FacB|20230101120000||ADT^A01|MSG00001|P|2.5")

/-- The header-metadata Delimiter Set of a parsed message, when parsing
succeeds. -/
def parsedEncodingOf (raw : Str) : Option Encoding :=
  match parse_hl7_message raw with
  | .ok _ d => some d.messageInfo.encoding
  | .failure _ _ _ => none

/-- Message type, control id and sending application of a parsed message. -/
def headerTripleOf (raw : Str) : Option (Str × Str × Str) :=
  match parse_hl7_message raw with
  | .ok _ d =>
    some (d.messageInfo.messageType, d.messageInfo.messageControlId,
          d.messageInfo.sendingApplication)
  | .failure _ _ _ => none

/-- The patient record extracted after parsing, when both steps succeed. -/
def extractedOf (raw : Str) : Option PatientInfo :=
  match extract_patient_info (parse_hl7_message raw) with
  | .ok _ p => some p
  | .failure _ => none

/-- The segment list of a parsed message (empty on parse failure). -/
def parsedSegments (raw : Str) : List SegmentData :=
  match parse_hl7_message raw with
  | .ok _ d => d.segments
  | .failure _ _ _ => []

/-- Helper for `positionsContiguous`: given the previous position, each later
position either continues the run (`prev + 1`) or starts a new run at 1. -/
def runsOk : Nat → List Nat → Bool
  | _, [] => true
  | prev, p :: ps => (decide (p = prev + 1) || decide (p = 1)) && runsOk p ps

/-- A position list is a concatenation of contiguous runs `1..n`: it is empty
or starts at 1, and every later entry continues the current run or resets
to 1. -/
def positionsContiguous : List Nat → Bool
  | [] => true
  | p :: ps => decide (p = 1) && runsOk p ps

/-- A header-metadata value with all entries empty, used to build concrete
tokenized messages directly. -/
def emptyMessageInfo : MessageInfo :=
  { messageType := [], messageControlId := [], messageDate := [], version := none
    sendingApplication := [], sendingFacility := [], receivingApplication := []
    receivingFacility := [], encoding :=
      { fieldSeparator := [], componentSeparator := [], repetitionSeparator := []
        escapeCharacter := [], subcomponentSeparator := [] } }

/-- A tokenized PID segment whose field 3 carries two repetition groups. -/
def repIdSegment : SegmentData :=
  segmentData '~' '^' '&' [str ("PID"), str ("1"), [], str ("ID1~ID2")]

/-- A (tokenized) parse success containing just `repIdSegment`. -/
def repIdParsed : ParseResult :=
  .ok (str ("parsed")) { messageInfo := emptyMessageInfo, segments := [repIdSegment] }

/-- A PID.3 field whose first repetition group carries the assigning system at
component position 4 and the type code at position 5, and whose second
repetition group is a bare identifier. -/
def idFieldEx : FieldData :=
  { fieldPosition := 3, value := str ("ID1^^^SYS^TYP~ID2")
    components := decomposeField '~' '^' '&' (str ("ID1^^^SYS^TYP~ID2")) }

/-! Helper lemmas. -/

theorem runsOk_append (l₁ l₂ : List Nat) (prev : Nat) (h₁ : runsOk prev l₁ = true)
    (h₂ : positionsContiguous l₂ = true) : runsOk prev (l₁ ++ l₂) = true := by
  induction l₁ generalizing prev with
  | nil =>
    cases l₂ with
    | nil => rfl
    | cons p ps =>
      simp only [positionsContiguous, Bool.and_eq_true, decide_eq_true_eq] at h₂
      obtain ⟨hp, hrun⟩ := h₂
      subst hp
      simp [runsOk, hrun]
  | cons q qs ih =>
    simp only [runsOk, Bool.and_eq_true] at h₁
    simp [runsOk, h₁.1, ih q h₁.2]

theorem positionsContiguous_append (l₁ l₂ : List Nat)
    (h₁ : positionsContiguous l₁ = true) (h₂ : positionsContiguous l₂ = true) :
    positionsContiguous (l₁ ++ l₂) = true := by
  cases l₁ with
  | nil => simpa using h₂
  | cons p ps =>
    simp only [positionsContiguous, Bool.and_eq_true] at h₁
    simp [positionsContiguous, h₁.1, runsOk_append ps l₂ p h₁.2 h₂]

theorem runsOk_range' (n k : Nat) : runsOk k (List.range' (k + 1) n) = true := by
  induction n generalizing k with
  | zero => rfl
  | succ n ih => simp [List.range', runsOk, ih (k + 1)]

theorem positionsContiguous_range' (n : Nat) :
    positionsContiguous (List.range' 1 n) = true := by
  cases n with
  | zero => rfl
  | succ n => simp [List.range', positionsContiguous, runsOk_range' n 1]

theorem positionsContiguous_flatten (L : List (List Nat))
    (h : ∀ l ∈ L, positionsContiguous l = true) :
    positionsContiguous L.flatten = true := by
  induction L with
  | nil => rfl
  | cons l Ls ih =>
    simp only [List.flatten_cons]
    exact positionsContiguous_append _ _ (h l (by simp))
      (ih (fun l' hl' => h l' (by simp [hl'])))

theorem mapWithPos_map_pos (s : Char) (k : Nat) (ps : List Str) :
    (mapWithPos s k ps).map (fun c => c.componentPosition) =
      List.range' (k + 1) ps.length := by
  induction ps generalizing k with
  | nil => rfl
  | cons p ps ih => simp [mapWithPos, componentAt, List.range', ih (k + 1)]

theorem mapWithPos_length (s : Char) (k : Nat) (ps : List Str) :
    (mapWithPos s k ps).length = ps.length := by
  induction ps generalizing k with
  | nil => rfl
  | cons p ps ih => simp [mapWithPos, ih (k + 1)]

theorem mapWithPos_getElem? (s : Char) (ps : List Str) (k i : Nat) :
    (mapWithPos s k ps)[i]? = (ps[i]?).map (fun p => componentAt s (k + i) p) := by
  induction ps generalizing k i with
  | nil => simp [mapWithPos]
  | cons p ps ih =>
    cases i with
    | zero => simp [mapWithPos]
    | succ i =>
      have hk : k + (i + 1) = k + 1 + i := by omega
      rw [hk]
      simpa [mapWithPos] using ih (k + 1) i

theorem mapWithPos_mem_shape (s : Char) (k : Nat) (ps : List Str) :
    ∀ x ∈ mapWithPos s k ps,
      x.subcomponents = mkSubcomponents s x.value ∧ x.value ∈ ps := by
  induction ps generalizing k with
  | nil => intro x hx; exact absurd hx (List.not_mem_nil x)
  | cons p ps ih =>
    intro x hx
    rcases List.mem_cons.1 hx with rfl | hx
    · exact ⟨rfl, by simp [componentAt]⟩
    · rcases ih (k + 1) x hx with ⟨h₁, h₂⟩
      exact ⟨h₁, by simp [h₂]⟩

theorem decompose_rep_eq (repSep compSep subSep : Char) (fv : Str)
    (h : strContainsC repSep fv = true) :
    decomposeField repSep compSep subSep fv =
      ((splitOnChar repSep fv).map (fun rep =>
        if strContainsC compSep rep then
          mapWithPos subSep 0 (splitOnChar compSep rep)
        else
          [{ componentPosition := 1, value := rep, subcomponents := [] }])).flatten := by
  simp [decomposeField, h]

theorem decompose_comp_eq (repSep compSep subSep : Char) (fv : Str)
    (hr : strContainsC repSep fv = false) (hc : strContainsC compSep fv = true) :
    decomposeField repSep compSep subSep fv =
      mapWithPos subSep 0 (splitOnChar compSep fv) := by
  simp [decomposeField, hr, hc]

theorem decompose_plain_eq (repSep compSep subSep : Char) (fv : Str)
    (hr : strContainsC repSep fv = false) (hc : strContainsC compSep fv = false) :
    decomposeField repSep compSep subSep fv =
      if fv = [] then []
      else [{ componentPosition := 1, value := fv, subcomponents := [] }] := by
  simp [decomposeField, hr, hc]

theorem decompose_mem_shape (repSep compSep subSep : Char) (fv : Str) :
    ∀ x ∈ decomposeField repSep compSep subSep fv,
      x.subcomponents = mkSubcomponents subSep x.value ∨ x.subcomponents = [] := by
  intro x hx
  by_cases hr : strContainsC repSep fv = true
  · rw [decompose_rep_eq repSep compSep subSep fv hr] at hx
    rw [List.mem_flatten] at hx
    obtain ⟨blk, hblk, hxblk⟩ := hx
    rw [List.mem_map] at hblk
    obtain ⟨rep, _, rfl⟩ := hblk
    by_cases hcr : strContainsC compSep rep = true
    · rw [if_pos hcr] at hxblk
      exact Or.inl (mapWithPos_mem_shape subSep 0 _ x hxblk).1
    · rw [if_neg hcr] at hxblk
      rw [List.mem_singleton] at hxblk
      subst hxblk
      exact Or.inr rfl
  · by_cases hc : strContainsC compSep fv = true
    · rw [decompose_comp_eq repSep compSep subSep fv (by simpa using hr) hc] at hx
      exact Or.inl (mapWithPos_mem_shape subSep 0 _ x hx).1
    · rw [decompose_plain_eq repSep compSep subSep fv (by simpa using hr)
        (by simpa using hc)] at hx
      by_cases hfv : fv = []
      · rw [if_pos hfv] at hx
        exact absurd hx (List.not_mem_nil x)
      · rw [if_neg hfv] at hx
        rw [List.mem_singleton] at hx
        subst hx
        exact Or.inr rfl

theorem decompose_positions (repSep compSep subSep : Char) (fv : Str) :
    positionsContiguous
      ((decomposeField repSep compSep subSep fv).map (fun x => x.componentPosition))
      = true := by
  by_cases hr : strContainsC repSep fv = true
  · rw [decompose_rep_eq repSep compSep subSep fv hr, List.map_flatten]
    apply positionsContiguous_flatten
    intro l hl
    rw [List.mem_map] at hl
    obtain ⟨blk, hblk, rfl⟩ := hl
    rw [List.mem_map] at hblk
    obtain ⟨rep, _, rfl⟩ := hblk
    by_cases hcr : strContainsC compSep rep = true
    · rw [if_pos hcr, mapWithPos_map_pos]
      exact positionsContiguous_range' _
    · rw [if_neg hcr]
      rfl
  · by_cases hc : strContainsC compSep fv = true
    · rw [decompose_comp_eq repSep compSep subSep fv (by simpa using hr) hc,
        mapWithPos_map_pos]
      exact positionsContiguous_range' _
    · rw [decompose_plain_eq repSep compSep subSep fv (by simpa using hr)
        (by simpa using hc)]
      by_cases hfv : fv = []
      · rw [if_pos hfv]; rfl
      · rw [if_neg hfv]; rfl

theorem fieldsFrom_length (repSep compSep subSep : Char) (i : Nat) (vs : List Str) :
    (fieldsFrom repSep compSep subSep i vs).length = vs.length := by
  induction vs generalizing i with
  | nil => rfl
  | cons v vs ih => simp [fieldsFrom, ih (i + 1)]

theorem fieldsFrom_map_pos (repSep compSep subSep : Char) (i : Nat) (vs : List Str) :
    (fieldsFrom repSep compSep subSep i vs).map (fun f => f.fieldPosition) =
      List.range' i vs.length := by
  induction vs generalizing i with
  | nil => rfl
  | cons v vs ih => simp [fieldsFrom, List.range', ih (i + 1)]

theorem fieldsFrom_mem_components (repSep compSep subSep : Char) (i : Nat) (vs : List Str) :
    ∀ f ∈ fieldsFrom repSep compSep subSep i vs,
      f.components = decomposeField repSep compSep subSep f.value := by
  induction vs generalizing i with
  | nil => intro f hf; exact absurd hf (List.not_mem_nil f)
  | cons v vs ih =>
    intro f hf
    rcases List.mem_cons.1 hf with rfl | hf
    · rfl
    · exact ih (i + 1) f hf

theorem lastValueAt_loop (pos : Nat) (comps : List Component) (acc : Option Str) :
    (comps.foldl (fun a c => if c.componentPosition = pos then some c.value else a) acc = acc
        ∧ ∀ c ∈ comps, c.componentPosition ≠ pos) ∨
      (∃ c ∈ comps, c.componentPosition = pos ∧
        comps.foldl (fun a c => if c.componentPosition = pos then some c.value else a) acc
          = some c.value) := by
  induction comps generalizing acc with
  | nil => exact Or.inl ⟨rfl, by intro c hc; exact absurd hc (List.not_mem_nil c)⟩
  | cons c cs ih =>
    by_cases hc : c.componentPosition = pos
    · rcases ih (some c.value) with ⟨heq, _⟩ | ⟨c', hc', hp', heq⟩
      · refine Or.inr ⟨c, by simp, hc, ?_⟩
        simpa [List.foldl_cons, if_pos hc] using heq
      · refine Or.inr ⟨c', by simp [hc'], hp', ?_⟩
        simpa [List.foldl_cons, if_pos hc] using heq
    · rcases ih acc with ⟨heq, hall⟩ | ⟨c', hc', hp', heq⟩
      · refine Or.inl ⟨?_, ?_⟩
        · simpa [List.foldl_cons, if_neg hc] using heq
        · intro x hx
          rcases List.mem_cons.1 hx with rfl | hx
          · exact hc
          · exact hall x hx
      · refine Or.inr ⟨c', by simp [hc'], hp', ?_⟩
        simpa [List.foldl_cons, if_neg hc] using heq

theorem lastValueAt_none (pos : Nat) (comps : List Component)
    (h : lastValueAt pos comps = none) : ∀ c ∈ comps, c.componentPosition ≠ pos := by
  rcases lastValueAt_loop pos comps none with ⟨_, hall⟩ | ⟨c, _, _, heq⟩
  · exact hall
  · rw [lastValueAt] at h
    rw [h] at heq
    exact absurd heq (by simp)

theorem lastValueAt_some (pos : Nat) (comps : List Component) (v : Str)
    (h : lastValueAt pos comps = some v) :
    ∃ c ∈ comps, c.componentPosition = pos ∧ c.value = v := by
  rcases lastValueAt_loop pos comps none with ⟨heq, _⟩ | ⟨c, hc, hp, heq⟩
  · rw [lastValueAt] at h
    rw [h] at heq
    exact absurd heq (by simp)
  · rw [lastValueAt] at h
    rw [h] at heq
    exact ⟨c, hc, hp, by simpa using heq.symm⟩

theorem parsedSegments_shape (raw : Str) :
    parsedSegments raw = [] ∨
      ∃ (repC compC subC : Char) (segs : List (List Str)),
        parsedSegments raw = segs.map (segmentData repC compC subC) := by
  unfold parsedSegments parse_hl7_message parse_hl7_body
  cases hp : hl7parseModel (pyStrip raw) with
  | error e => exact Or.inl rfl
  | ok segs =>
    cases segs with
    | nil => exact Or.inl rfl
    | cons msh rest =>
      cases hd : deriveSeparators msh with
      | error e => simp [hd]
      | ok tup =>
        obtain ⟨encRec, repC, compC, subC⟩ := tup
        cases hb : buildMessageInfo msh encRec with
        | error e => simp [hd, hb]
        | ok info =>
          refine Or.inr ⟨repC, compC, subC, msh :: rest, ?_⟩
          simp [hd, hb]

/-! Claim theorems. -/

/-- C1: evaluating the parser at the standard header shows that the recorded
Delimiter Set is ("MSH", "|", "~", "\", "&"): the field-separator slot holds
the 3-letter segment code itself (element 0 of the parsed header) rather than
the character following it, the component-separator slot holds the field
separator (character 1 of element 1, which is the field-separator entry, not
of the encoding-characters field), and the repetition, escape and
subcomponent separators always fall back to their defaults.  This contradicts
the claimed derivation, under which the field separator would be "|" and the
component separator "^". -/
theorem C1_delimiters_at_standard_header :
    parsedEncodingOf sampleRaw =
      some { fieldSeparator := str ("MSH"), componentSeparator := str ("|"),
             repetitionSeparator := str ("~"), escapeCharacter := str ("\\"),
             subcomponentSeparator := str ("&") } ∧
    str ("MSH") ≠ str ("|") ∧ str ("|") ≠ str ("^") := by
  refine ⟨by decide, by decide, by decide⟩

/-- C2: on the literal end-to-end scenario input, the header metadata comes
out as claimed (message type "ADT^A01", control id "MSG00001", sending
application "AppA"), but because the component separator is derived as "|"
the PID fields are never split on "^": the single identifier keeps the whole
raw value "12345^^^HOSP^MR" with no type or system, the name's family slot
holds "DOE^JOHN^M" with no given or middle name, and the address's street
slot holds the entire raw address; only birth date and gender match the
claim. -/
theorem C2_end_to_end_divergence :
    headerTripleOf sampleRaw =
      some (str ("ADT^A01"), str ("MSG00001"), str ("AppA")) ∧
    extractedOf sampleRaw =
      some { identifiers :=
               [{ value := str ("12345^^^HOSP^MR"), type := none, system := none }]
             names :=
               [{ family := some (str ("DOE^JOHN^M")), given := none, middle := none,
                  pfx := none, sfx := none }]
             birthDate := some (str ("19800101"))
             gender := some (str ("M"))
             addresses :=
               [{ street := some (str ("123 MAIN ST^^SPRINGFIELD^IL^62701^USA")),
                  otherStreet := none, city := none, state := none,
                  postalCode := none, country := none }] } ∧
    str ("DOE^JOHN^M") ≠ str ("DOE") := by
  refine ⟨by decide, by decide, by decide⟩

/-- C3 counterexample: a field whose whole value is "X&Y" (no repetition and
no component separator) yields one component at position 1 whose subcomponent
list is empty, although the value contains the subcomponent separator - not
the claimed split into "X" and "Y". -/
theorem C3_counterexample :
    decomposeField '~' '^' '&' (str ("X&Y")) =
      [{ componentPosition := 1, value := str ("X&Y"), subcomponents := [] }] ∧
    strContainsC '&' (str ("X&Y")) = true ∧
    ([] : List Subcomponent) ≠ [{ value := str ("X") }, { value := str ("Y") }] := by
  refine ⟨by decide, by decide, by decide⟩

/-- C3 (amended): subcomponent splitting happens only for components produced
by a component-separator split.  (1) A component whose value does not contain
the subcomponent separator always has an empty subcomponent list.  (2) When
the field has no repetition separator but contains the component separator,
every component whose value contains the subcomponent separator carries the
split parts.  (3) When the field contains neither separator, its single
component (if any) has an empty subcomponent list even if its value contains
the subcomponent separator.  (4) In the repetition branch every emitted
component comes from some repetition group and its subcomponents are fully
determined: a group without the component separator contributes exactly the
component at position 1 with the group's value and an empty subcomponent
list - even when that value contains the subcomponent separator - while a
component produced by a group's component split carries the split parts when
its value contains the subcomponent separator and an empty list otherwise.
(5) In the repetition branch every group without the component separator
does emit its position-1 component with an empty subcomponent list. -/
theorem C3_subcomponent_rule (repSep compSep subSep : Char) (fv : Str) :
    (∀ c ∈ decomposeField repSep compSep subSep fv,
        strContainsC subSep c.value = false → c.subcomponents = []) ∧
    (strContainsC repSep fv = false → strContainsC compSep fv = true →
      ∀ c ∈ decomposeField repSep compSep subSep fv,
        strContainsC subSep c.value = true →
          c.subcomponents = (splitOnChar subSep c.value).map Subcomponent.mk) ∧
    (strContainsC repSep fv = false → strContainsC compSep fv = false →
      ∀ c ∈ decomposeField repSep compSep subSep fv, c.subcomponents = []) ∧
    (strContainsC repSep fv = true →
      ∀ c ∈ decomposeField repSep compSep subSep fv,
        ∃ g ∈ splitOnChar repSep fv,
          (strContainsC compSep g = false ∧
            c = { componentPosition := 1, value := g, subcomponents := [] }) ∨
          (strContainsC compSep g = true ∧ c.value ∈ splitOnChar compSep g ∧
            (strContainsC subSep c.value = true →
              c.subcomponents = (splitOnChar subSep c.value).map Subcomponent.mk) ∧
            (strContainsC subSep c.value = false → c.subcomponents = []))) ∧
    (strContainsC repSep fv = true →
      ∀ g ∈ splitOnChar repSep fv, strContainsC compSep g = false →
        ({ componentPosition := 1, value := g, subcomponents := [] } : Component)
          ∈ decomposeField repSep compSep subSep fv) := by
  refine ⟨?_, ?_, ?_, ?_, ?_⟩
  · intro c hc hsub
    rcases decompose_mem_shape repSep compSep subSep fv c hc with h | h
    · rw [h, mkSubcomponents, if_neg (by simp [hsub])]
    · exact h
  · intro hr hcf c hc hsub
    rw [decompose_comp_eq repSep compSep subSep fv hr hcf] at hc
    have h := (mapWithPos_mem_shape subSep 0 _ c hc).1
    rw [h, mkSubcomponents, if_pos hsub]
  · intro hr hcf c hc
    rw [decompose_plain_eq repSep compSep subSep fv hr hcf] at hc
    by_cases hfv : fv = []
    · rw [if_pos hfv] at hc
      exact absurd hc (List.not_mem_nil c)
    · rw [if_neg hfv] at hc
      rw [List.mem_singleton] at hc
      subst hc
      rfl
  · intro hr c hc
    rw [decompose_rep_eq repSep compSep subSep fv hr] at hc
    rw [List.mem_flatten] at hc
    obtain ⟨blk, hblk, hcblk⟩ := hc
    rw [List.mem_map] at hblk
    obtain ⟨g, hg, rfl⟩ := hblk
    refine ⟨g, hg, ?_⟩
    by_cases hcg : strContainsC compSep g = true
    · rw [if_pos hcg] at hcblk
      obtain ⟨hsubEq, hval⟩ := mapWithPos_mem_shape subSep 0 _ c hcblk
      refine Or.inr ⟨hcg, hval, ?_, ?_⟩
      · intro hsub
        rw [hsubEq, mkSubcomponents, if_pos hsub]
      · intro hsub
        rw [hsubEq, mkSubcomponents, if_neg (by simp [hsub])]
    · rw [if_neg hcg] at hcblk
      rw [List.mem_singleton] at hcblk
      exact Or.inl ⟨by simpa using hcg, hcblk⟩
  · intro hr g hg hgc
    rw [decompose_rep_eq repSep compSep subSep fv hr]
    apply List.mem_flatten.2
    refine ⟨[{ componentPosition := 1, value := g, subcomponents := [] }], ?_, by simp⟩
    exact List.mem_map.2 ⟨g, hg, by rw [if_neg (by simp [hgc])]⟩

/-- C3 witness: in the field "X&Y~Z" the repetition group "X&Y" carries no
component separator, so it emits the component at position 1 with value
"X&Y" and an empty subcomponent list although the value contains the
subcomponent separator; and in the field "A^X&Y" the component "X&Y"
produced by the component split carries the subcomponents "X" and "Y". -/
theorem C3_witness :
    ({ componentPosition := 1, value := str ("X&Y"),
       subcomponents := ([] : List Subcomponent) } : Component)
      ∈ decomposeField '~' '^' '&' (str ("X&Y~Z")) ∧
    ({ componentPosition := 2, value := str ("X&Y"),
       subcomponents := [{ value := str ("X") }, { value := str ("Y") }] }
        : Component).subcomponents
      = (splitOnChar '&' (str ("X&Y"))).map Subcomponent.mk :=
  ⟨(C3_subcomponent_rule '~' '^' '&' (str ("X&Y~Z"))).2.2.2.2 (by decide)
      (str ("X&Y")) (by decide) (by decide),
   (C3_subcomponent_rule '~' '^' '&' (str ("A^X&Y"))).2.1 (by decide) (by decide)
      { componentPosition := 2, value := str ("X&Y"),
        subcomponents := [{ value := str ("X") }, { value := str ("Y") }] }
      (by decide) (by decide)⟩

/-- C4 counterexample: the field "A~~B" contains an empty repetition group,
and that group does emit a component - position 1 with empty value - where
the claim says an empty group emits no component at all. -/
theorem C4_counterexample :
    decomposeField '~' '^' '&' (str ("A~~B")) =
      [{ componentPosition := 1, value := str ("A"), subcomponents := [] },
       { componentPosition := 1, value := [], subcomponents := [] },
       { componentPosition := 1, value := str ("B"), subcomponents := [] }] ∧
    ({ componentPosition := 1, value := [], subcomponents := [] } : Component)
      ∈ decomposeField '~' '^' '&' (str ("A~~B")) := by
  refine ⟨by decide, by decide⟩

/-- C4 (amended): for every field containing the repetition separator, a
repetition group containing the component separator yields components at
positions 1..N carrying the split parts, and a group without the component
separator yields one component at position 1 unconditionally - an empty
group emits a component with empty value (the emptiness skip exists only at
whole-field level). -/
theorem C4_repetition_groups (repSep compSep subSep : Char) (fv : Str)
    (h : strContainsC repSep fv = true) :
    (∀ g ∈ splitOnChar repSep fv, strContainsC compSep g = false →
        ({ componentPosition := 1, value := g, subcomponents := [] } : Component)
          ∈ decomposeField repSep compSep subSep fv) ∧
    (∀ g ∈ splitOnChar repSep fv, strContainsC compSep g = true →
        ∀ i : Fin (splitOnChar compSep g).length,
          ({ componentPosition := i.1 + 1,
             value := (splitOnChar compSep g).get i,
             subcomponents :=
               mkSubcomponents subSep ((splitOnChar compSep g).get i) } : Component)
            ∈ decomposeField repSep compSep subSep fv) := by
  rw [decompose_rep_eq repSep compSep subSep fv h]
  constructor
  · intro g hg hgc
    apply List.mem_flatten.2
    refine ⟨[{ componentPosition := 1, value := g, subcomponents := [] }], ?_, by simp⟩
    exact List.mem_map.2 ⟨g, hg, by rw [if_neg (by simp [hgc])]⟩
  · intro g hg hgc i
    apply List.mem_flatten.2
    have hlen : i.1 < (mapWithPos subSep 0 (splitOnChar compSep g)).length := by
      rw [mapWithPos_length]
      exact i.2
    refine ⟨mapWithPos subSep 0 (splitOnChar compSep g),
      List.mem_map.2 ⟨g, hg, by rw [if_pos hgc]⟩, ?_⟩
    have hget := mapWithPos_getElem? subSep (splitOnChar compSep g) 0 i.1
    rw [List.getElem?_eq_getElem i.2, List.getElem?_eq_getElem hlen] at hget
    have hEq : (mapWithPos subSep 0 (splitOnChar compSep g))[i.1] =
        componentAt subSep (0 + i.1) ((splitOnChar compSep g)[i.1]) :=
      Option.some.inj hget
    have hmem := List.getElem_mem hlen
    rw [hEq] at hmem
    simpa [componentAt, Nat.zero_add, List.get_eq_getElem] using hmem

/-- C4 witness: in "A~~B" the empty middle repetition group emits the
component at position 1 with empty value. -/
theorem C4_witness :
    ({ componentPosition := 1, value := ([] : Str),
       subcomponents := ([] : List Subcomponent) } : Component)
      ∈ decomposeField '~' '^' '&' (str ("A~~B")) :=
  (C4_repetition_groups '~' '^' '&' (str ("A~~B")) (by decide)).1 [] (by decide)
    (by decide)

/-- C5 counterexample: on a tokenized message whose PID field 3 carries two
repetition groups, extraction succeeds with two identifiers, so the
identifiers list is not limited to 0 or 1 entries. -/
theorem C5_counterexample :
    (match extract_patient_info repIdParsed with
      | .ok _ d => d.identifiers.length
      | .failure _ => 0) = 2 ∧ ¬ (2 ≤ 1) := by
  refine ⟨by decide, by decide⟩

/-- C5 (amended): on every successful extraction the names and addresses
lists have at most one entry, while the identifiers list has exactly one
entry per component at position 1 of the patient segment's field 3 - one per
repetition group - and can therefore exceed one. -/
theorem C5_list_cardinalities :
    (∀ parsed m d, extract_patient_info parsed = .ok m d →
        d.names.length ≤ 1 ∧ d.addresses.length ≤ 1) ∧
    (∀ parsed m d pid, extract_patient_info parsed = .ok m d →
        (segmentsOf parsed).find? (fun sg => sg.segmentId == str ("PID")) = some pid →
        d.identifiers.length =
          (match getFieldAt pid.fields 3 with
            | none => 0
            | some f =>
              (f.components.filter (fun comp => comp.componentPosition == 1)).length)) := by
  constructor
  · intro parsed m d h
    unfold extract_patient_info at h
    cases hfind : (segmentsOf parsed).find? (fun sg => sg.segmentId == str ("PID")) with
    | none => rw [hfind] at h; cases h
    | some pid =>
      rw [hfind] at h
      cases h
      constructor
      · cases hn : getFieldAt pid.fields 5 <;> simp [hn]
      · cases ha : getFieldAt pid.fields 11 <;> simp [ha]
  · intro parsed m d pid h hfind
    unfold extract_patient_info at h
    rw [hfind] at h
    cases h
    cases hid : getFieldAt pid.fields 3 <;> simp [hid, extractIdentifiers]

/-- C5 witness: on the two-repetition tokenized message the names and
addresses lists are still empty, hence within the 0-or-1 bound. -/
theorem C5_witness :
    ([] : List PatientName).length ≤ 1 ∧ ([] : List PatientAddress).length ≤ 1 :=
  C5_list_cardinalities.1 repIdParsed
    (str ("Informations patient extraites avec succès"))
    { identifiers := [{ value := str ("ID1"), type := none, system := none },
                      { value := str ("ID2"), type := none, system := none }]
      names := [], birthDate := none, gender := none, addresses := [] }
    (by decide)

/-- C6: on every tokenized message with no segment whose identifier is "PID",
extraction returns the segment-not-found failure, which carries only the
failure message and no patient data at all. -/
theorem C6_segment_not_found (parsed : ParseResult)
    (h : ∀ sg ∈ segmentsOf parsed, sg.segmentId ≠ str ("PID")) :
    extract_patient_info parsed =
      .failure (str ("Segment PID non trouvé dans le message HL7")) := by
  unfold extract_patient_info
  have hfind : (segmentsOf parsed).find? (fun sg => sg.segmentId == str ("PID"))
      = none := by
    apply List.find?_eq_none.2
    intro sg hsg
    simpa using h sg hsg
  rw [hfind]

/-- C6 witness: a concrete tokenized message holding a single OBX segment
yields the segment-not-found failure. -/
theorem C6_witness :
    extract_patient_info
      (.ok (str ("ok"))
        { messageInfo := emptyMessageInfo
          segments := [{ segmentId := str ("OBX"), fields := [] }] })
      = .failure (str ("Segment PID non trouvé dans le message HL7")) :=
  C6_segment_not_found _ (by decide)

/-- C7: every parse failure carries a message embedding the original
exception text together with the diagnostic trace string of that exception,
and no message data (the failure value has no data component at all); in
particular the empty input string produces exactly such a failure. -/
theorem C7_parse_failure_shape :
    (∀ raw : Str,
      match parse_hl7_message raw with
      | .ok _ _ => True
      | .failure m e st =>
        m = str ("Erreur lors du parsing du message HL7: ") ++ e ∧ st = traceOf e) ∧
    parse_hl7_message (str ("")) =
      .failure (str ("Erreur lors du parsing du message HL7: ") ++ str ("empty message"))
        (str ("empty message")) (traceOf (str ("empty message"))) := by
  constructor
  · intro raw
    cases hb : parse_hl7_body raw <;> simp [parse_hl7_message, hb]
  · decide

/-- C8: in every successfully parsed message, each field's component
positions form a concatenation of contiguous runs starting at 1 (one run per
repetition group), and each segment's field positions are exactly
1, 2, ... in wire order. -/
theorem C8_position_integrity (raw : Str) (seg : SegmentData) (f : FieldData)
    (hs : seg ∈ parsedSegments raw) (hf : f ∈ seg.fields) :
    positionsContiguous (f.components.map (fun comp => comp.componentPosition)) = true ∧
    seg.fields.map (fun g => g.fieldPosition) = List.range' 1 seg.fields.length := by
  rcases parsedSegments_shape raw with h | ⟨repC, compC, subC, segs, h⟩
  · rw [h] at hs
    exact absurd hs (List.not_mem_nil seg)
  · rw [h] at hs
    rcases List.mem_map.1 hs with ⟨sg, _, rfl⟩
    constructor
    · have hcomp := fieldsFrom_mem_components repC compC subC 1 sg.tail f hf
      rw [hcomp]
      exact decompose_positions repC compC subC f.value
    · show (fieldsFrom repC compC subC 1 sg.tail).map _ =
        List.range' 1 (fieldsFrom repC compC subC 1 sg.tail).length
      rw [fieldsFrom_map_pos, fieldsFrom_length]

/-- C8 witness: the third field of the parsed PID-less sample's header
segment has contiguous component positions. -/
theorem C8_witness :
    positionsContiguous
      ((((parsedSegments noPidRaw).headD { segmentId := [], fields := [] }).fields.getD 2
          { fieldPosition := 0, value := [], components := [] }).components.map
        (fun comp => comp.componentPosition)) = true :=
  (C8_position_integrity noPidRaw
    ((parsedSegments noPidRaw).headD { segmentId := [], fields := [] })
    (((parsedSegments noPidRaw).headD { segmentId := [], fields := [] }).fields.getD 2
      { fieldPosition := 0, value := [], components := [] })
    (by decide) (by decide)).1

/-- C9: each identifier produced from a PID.3 field takes its value from a
component at position 1; its type is the value of a component at position 5
found anywhere in the same field (absent when none exists) and its system
likewise from a component at position 4; there is one identifier per
position-1 component and all identifiers from the field carry the same
scanned type and system. -/
theorem C9_identifier_field_scan (f : FieldData) :
    ((extractIdentifiers f).length =
      (f.components.filter (fun comp => comp.componentPosition == 1)).length) ∧
    (∀ pid ∈ extractIdentifiers f,
      (∀ v, pid.type = some v →
        ∃ c ∈ f.components, c.componentPosition = 5 ∧ c.value = v) ∧
      (pid.type = none → ∀ c ∈ f.components, c.componentPosition ≠ 5) ∧
      (∀ v, pid.system = some v →
        ∃ c ∈ f.components, c.componentPosition = 4 ∧ c.value = v) ∧
      (pid.system = none → ∀ c ∈ f.components, c.componentPosition ≠ 4)) ∧
    (∀ pid ∈ extractIdentifiers f, ∀ pid2 ∈ extractIdentifiers f,
      pid.type = pid2.type ∧ pid.system = pid2.system) ∧
    (∀ pid ∈ extractIdentifiers f,
      ∃ c ∈ f.components, c.componentPosition = 1 ∧ pid.value = c.value) := by
  refine ⟨?_, ?_, ?_, ?_⟩
  · simp [extractIdentifiers]
  · intro pid hpid
    rcases List.mem_map.1 hpid with ⟨c0, _, rfl⟩
    refine ⟨?_, ?_, ?_, ?_⟩
    · intro v hv
      exact lastValueAt_some 5 f.components v hv
    · intro hnone c hc
      exact lastValueAt_none 5 f.components hnone c hc
    · intro v hv
      exact lastValueAt_some 4 f.components v hv
    · intro hnone c hc
      exact lastValueAt_none 4 f.components hnone c hc
  · intro pid hpid pid2 hpid2
    rcases List.mem_map.1 hpid with ⟨c0, _, rfl⟩
    rcases List.mem_map.1 hpid2 with ⟨c2, _, rfl⟩
    exact ⟨rfl, rfl⟩
  · intro pid hpid
    rcases List.mem_map.1 hpid with ⟨c0, hc0, rfl⟩
    rcases List.mem_filter.1 hc0 with ⟨hmem, hpos⟩
    exact ⟨c0, hmem, by simpa using hpos, rfl⟩

/-- C9 witness: on a field whose system and type components live in a
different repetition group than the second identifier, both extracted
identifiers carry the same scanned type and system. -/
theorem C9_witness :
    ({ value := str ("ID1"), type := some (str ("TYP")),
       system := some (str ("SYS")) } : PatientIdentifier).type
      = ({ value := str ("ID2"), type := some (str ("TYP")),
           system := some (str ("SYS")) } : PatientIdentifier).type ∧
    ({ value := str ("ID1"), type := some (str ("TYP")),
       system := some (str ("SYS")) } : PatientIdentifier).system
      = ({ value := str ("ID2"), type := some (str ("TYP")),
           system := some (str ("SYS")) } : PatientIdentifier).system :=
  (C9_identifier_field_scan idFieldEx).2.2.1
    { value := str ("ID1"), type := some (str ("TYP")), system := some (str ("SYS")) }
    (by decide)
    { value := str ("ID2"), type := some (str ("TYP")), system := some (str ("SYS")) }
    (by decide)

/-- C10: applying the extractor to a parse-failure value - which has no data
key and hence no segment list - does not fault and returns exactly the same
segment-not-found failure as a well-formed message without a PID segment
(demonstrated on the PID-less sample). -/
theorem C10_extract_on_failure_value (m e st : Str) :
    extract_patient_info (.failure m e st) =
      .failure (str ("Segment PID non trouvé dans le message HL7")) ∧
    extract_patient_info (parse_hl7_message noPidRaw) =
      .failure (str ("Segment PID non trouvé dans le message HL7")) :=
  ⟨rfl, by decide⟩

end FhirConverter

